import Mathlib

/-!
# Verification of the Jamaica Bay wind-data analyzer

Shallow embedding of `wind_analyzer.py` (`class WindDataAnalyzer`).  The
analyzer holds an optional data frame with columns `timestamp`,
`wind_speed`, `wind_direction`, plus derived helper columns
(`direction_bin`, `hour`) that some queries write back into the frame.
Floating-point numbers are modelled as rationals (`ℚ`); a float `NaN`
produced by the numeric library (sample standard deviation of a single
value, `0/0` in a rolling quotient) is modelled as `Option.none`.
Timestamps are modelled as naive counts of seconds, so the hour component
of a timestamp is `t / 3600 % 24`.
-/

/-- One record of the data frame: columns `timestamp` (naive seconds),
`wind_speed` and `wind_direction`.  When the frame has no timestamp column
the `ts` field is unused (see `WindData.hasTimestamp`). -/
structure Row where
  ts : ℕ
  wind_speed : ℚ
  wind_direction : ℚ
deriving DecidableEq, Repr

/-- The core columns of the loaded data frame.  `hasTimestamp` records
whether the `timestamp` column is present (`'timestamp' in self.data.columns`). -/
structure WindData where
  hasTimestamp : Bool
  rows : List Row
deriving DecidableEq, Repr

/-- The analyzer's frame: core columns plus the derived helper columns
`direction_bin` and `hour` that `get_wind_rose_data`,
`get_prevailing_direction` and `analyze_daily_pattern` write into
`self.data` as a side effect (`none` = column not yet written). -/
structure Frame where
  base : WindData
  direction_bin : Option (List ℚ)
  hour : Option (List ℕ)
deriving DecidableEq, Repr

/-- The error taxonomy of the spec: `ValueError("No data loaded")` is
`EmptyDatasetError`, `ValueError("Timestamp column required …")` is
`MissingTimestampError`. -/
inductive AErr where
  | emptyDataset
  | missingTimestamp
deriving DecidableEq, Repr

/-- The `wind_speed` column of a list of rows. -/
def speeds (rows : List Row) : List ℚ :=
  rows.map Row.wind_speed

/-- Maximum of a list of rationals (`Series.max`); only used on non-empty lists. -/
def listMax : List ℚ → ℚ
  | [] => 0
  | [x] => x
  | x :: y :: t => max x (listMax (y :: t))

/-- Minimum of a list of rationals (`Series.min`); only used on non-empty lists. -/
def listMin : List ℚ → ℚ
  | [] => 0
  | [x] => x
  | x :: y :: t => min x (listMin (y :: t))

/-- Arithmetic mean of a list of rationals (`Series.mean`). -/
def listMean (xs : List ℚ) : ℚ :=
  xs.sum / xs.length

/-- Insert into a sorted list (used by `medianQ`). -/
def insertSorted (x : ℚ) : List ℚ → List ℚ
  | [] => [x]
  | y :: t => if x ≤ y then x :: y :: t else y :: insertSorted x t

/-- Sort a list of rationals ascending (used by `medianQ`). -/
def sortQ (l : List ℚ) : List ℚ :=
  l.foldr insertSorted []

/-- Median (`Series.median`): middle element of the sorted list, or the mean
of the two middle elements for even length. -/
def medianQ (xs : List ℚ) : ℚ :=
  let s := sortQ xs
  let n := xs.length
  if n % 2 = 1 then s.getD (n / 2) 0
  else (s.getD (n / 2 - 1) 0 + s.getD (n / 2) 0) / 2

/-- Sample variance with `n - 1` denominator, i.e. the square of
`Series.std(ddof=1)`.  The reported standard deviation is its square root
(irrational in general, so the embedding carries the square); `none`
models the `NaN` that pandas returns when fewer than two samples are
available. -/
def listVar? (xs : List ℚ) : Option ℚ :=
  if xs.length ≤ 1 then none
  else some ((xs.map (fun x => (x - listMean xs) ^ 2)).sum / ((xs.length - 1 : ℕ) : ℚ))

/-- The statistics record returned by `get_basic_statistics`.
`std_speed_sq` is the square of the reported `std_speed` (see `listVar?`). -/
structure BasicStats where
  mean_speed : ℚ
  median_speed : ℚ
  std_speed_sq : Option ℚ
  min_speed : ℚ
  max_speed : ℚ
deriving DecidableEq, Repr

/-- `self.data['wind_speed']` statistics of `get_basic_statistics`. -/
def basicStatsOf (rows : List Row) : BasicStats :=
  { mean_speed := listMean (speeds rows)
    median_speed := medianQ (speeds rows)
    std_speed_sq := listVar? (speeds rows)
    min_speed := listMin (speeds rows)
    max_speed := listMax (speeds rows) }

/-- `get_basic_statistics`: raises when no data is loaded or the frame is
empty, otherwise returns the statistics of the speed column.  The state is
returned unchanged (the method does not write derived columns). -/
def get_basic_statistics : Option Frame → Except AErr (BasicStats × Option Frame)
  | none => .error .emptyDataset
  | some f =>
    if f.base.rows.isEmpty then .error .emptyDataset
    else .ok (basicStatsOf f.base.rows, some f)

/-- `360 / bins`, the angular width of one wind-rose bin. -/
def binSize (bins : ℕ) : ℚ :=
  360 / (bins : ℚ)

/-- `numpy` `astype(int)`: truncation toward zero. -/
def floatToInt (q : ℚ) : ℤ :=
  if 0 ≤ q then ⌊q⌋ else ⌈q⌉

/-- Wind-rose bin of one direction:
`(self.data['wind_direction'] / bin_size).astype(int) % bins`
(truncating division, then the nonnegative remainder that Python's `%`
yields for a positive modulus). -/
def roseBin (bins : ℕ) (dir : ℚ) : ℚ :=
  ((floatToInt (dir / binSize bins) % (bins : ℤ) : ℤ) : ℚ)

/-- The structure returned by `get_wind_rose_data`. -/
structure WindRose where
  directions : List ℚ
  frequencies : List ℚ
  avg_speeds : List ℚ
deriving DecidableEq, Repr

/-- Rows whose `direction_bin` value equals `v`
(`self.data[self.data['direction_bin'] == v]`): the bin column and the
rows are aligned by position. -/
def rowsInBin (dbins : List ℚ) (rows : List Row) (v : ℚ) : List Row :=
  ((dbins.zip rows).filter (fun p => decide (p.1 = v))).map Prod.snd

/-- The `direction_bin` column written by `get_wind_rose_data`:
`(self.data['wind_direction'] / bin_size).astype(int) % bins`. -/
def roseBins (bins : ℕ) (rows : List Row) : List ℚ :=
  rows.map (fun r => roseBin bins r.wind_direction)

/-- The record built by the loop `for i in range(bins)` of
`get_wind_rose_data`: lower edge `i * bin_size`, frequency
`len(bin_data) / len(data) * 100`, and `bin_data['wind_speed'].mean()`
(or 0 for an empty bin) per bin index. -/
def windRoseOf (bins : ℕ) (rows : List Row) : WindRose :=
  { directions := (List.range bins).map (fun i : ℕ => (i : ℚ) * binSize bins)
    frequencies := (List.range bins).map
      (fun i : ℕ =>
        ((rowsInBin (roseBins bins rows) rows (i : ℚ)).length : ℚ) / (rows.length : ℚ) * 100)
    avg_speeds := (List.range bins).map
      (fun i : ℕ =>
        if 0 < (rowsInBin (roseBins bins rows) rows (i : ℚ)).length
        then listMean (speeds (rowsInBin (roseBins bins rows) rows (i : ℚ)))
        else 0) }

/-- `get_wind_rose_data(bins)`: writes the `direction_bin` helper column,
then aggregates per bin index `0 .. bins-1` the lower edge, the relative
frequency in percent, and the mean speed (0 for an empty bin). -/
def get_wind_rose_data (bins : ℕ) : Option Frame → Except AErr (WindRose × Option Frame)
  | none => .error .emptyDataset
  | some f =>
    if f.base.rows.isEmpty then .error .emptyDataset
    else
      .ok (windRoseOf bins f.base.rows,
        some { f with direction_bin := some (roseBins bins f.base.rows) })

/-- A filtered view of the frame: boolean-mask indexing
(`self.data[mask].copy()`) keeps every column, the derived helper columns
included. -/
structure FrameView where
  hasTimestamp : Bool
  rows : List Row
  direction_bin : Option (List ℚ)
  hour : Option (List ℕ)
deriving DecidableEq, Repr

/-- Apply a boolean mask positionally to a column. -/
def maskList {α : Type} (mask : List Bool) (xs : List α) : List α :=
  ((mask.zip xs).filter (fun p => p.1)).map Prod.snd

/-- Boolean-mask filtering of the whole frame by a row predicate. -/
def filterFrame (p : Row → Bool) (f : Frame) : FrameView :=
  let mask := f.base.rows.map p
  { hasTimestamp := f.base.hasTimestamp
    rows := maskList mask f.base.rows
    direction_bin := f.direction_bin.map (maskList mask)
    hour := f.hour.map (maskList mask) }

/-- `detect_calm_periods(threshold)`: rows with `wind_speed < threshold`. -/
def detect_calm_periods (threshold : ℚ) : Option Frame → Except AErr (FrameView × Option Frame)
  | none => .error .emptyDataset
  | some f =>
    if f.base.rows.isEmpty then .error .emptyDataset
    else .ok (filterFrame (fun r => decide (r.wind_speed < threshold)) f, some f)

/-- `detect_strong_wind_events(threshold)`: rows with `wind_speed > threshold`. -/
def detect_strong_wind_events (threshold : ℚ) : Option Frame → Except AErr (FrameView × Option Frame)
  | none => .error .emptyDataset
  | some f =>
    if f.base.rows.isEmpty then .error .emptyDataset
    else .ok (filterFrame (fun r => decide (threshold < r.wind_speed)) f, some f)

/-- The trailing window of up to `window` samples ending at position `i`:
positions `max(0, i+1-window) .. i`.  (Natural-number subtraction makes
`i+1-window` exactly `max(0, i+1-window)`.) -/
def windowSlice (window : ℕ) (xs : List ℚ) (i : ℕ) : List ℚ :=
  (xs.take (i + 1)).drop (i + 1 - window)

/-- `Series.rolling(window).agg(f)` with the default
`min_periods = window`: positions with fewer than `window` samples
available are `NaN` (`none`). -/
def rollingWith (f : List ℚ → ℚ) (window : ℕ) (xs : List ℚ) : List (Option ℚ) :=
  (List.range xs.length).map
    (fun i => if i + 1 < window then none else some (f (windowSlice window xs i)))

/-- Pointwise quotient of two rolling series.  A missing operand
propagates; a zero divisor yields no numeric value (for the nonnegative
speeds of the data model the source's float division produces `0/0 = NaN`
there, since a zero window mean forces a zero window maximum). -/
def optDiv : Option ℚ → Option ℚ → Option ℚ
  | some a, some b => if b = 0 then none else some (a / b)
  | some _, none => none
  | none, _ => none

/-- `rolling_max / rolling_mean` of `calculate_gust_factor`. -/
def gustSeries (window : ℕ) (xs : List ℚ) : List (Option ℚ) :=
  List.zipWith optDiv (rollingWith listMax window xs) (rollingWith listMean window xs)

/-- `calculate_gust_factor(window)`: the rolling max/mean quotient of the
speed column.  The state is returned unchanged. -/
def calculate_gust_factor (window : ℕ) : Option Frame → Except AErr (List (Option ℚ) × Option Frame)
  | none => .error .emptyDataset
  | some f =>
    if f.base.rows.isEmpty then .error .emptyDataset
    else .ok (gustSeries window (speeds f.base.rows), some f)

/-- `numpy` rounding of a float to an integer: round half to even. -/
def roundHalfEven (q : ℚ) : ℤ :=
  if q - ⌊q⌋ < 1 / 2 then ⌊q⌋
  else if 1 / 2 < q - ⌊q⌋ then ⌊q⌋ + 1
  else if ⌊q⌋ % 2 = 0 then ⌊q⌋ else ⌊q⌋ + 1

/-- Prevailing-direction bin of one direction:
`(self.data['wind_direction'] / 22.5).round() % 16` (rounding, then the
nonnegative remainder — note the asymmetry with `roseBin`'s truncation). -/
def prevBin (dir : ℚ) : ℚ :=
  ((roundHalfEven (dir / (45 / 2)) % 16 : ℤ) : ℚ)

/-- Number of occurrences of `x` in `l` (`(series == x).sum()`). -/
def cnt (x : ℚ) (l : List ℚ) : ℕ :=
  (l.filter (fun y => decide (y = x))).length

/-- Selection loop behind `Series.mode()[0]`: starting from candidate
`best`, take each later value when its count is strictly higher, or equal
with a smaller value.  The result is the smallest value of maximal count. -/
def pickMode (l : List ℚ) : ℚ → List ℚ → ℚ
  | best, [] => best
  | best, v :: vs =>
    if cnt best l < cnt v l ∨ (cnt v l = cnt best l ∧ v < best) then pickMode l v vs
    else pickMode l best vs

/-- `Series.mode()[0]`: `mode()` lists the most frequent values sorted
ascending, and `[0]` takes the smallest of them. -/
def modeFirst : List ℚ → ℚ
  | [] => 0
  | x :: xs => pickMode (x :: xs) x xs

/-- The `direction_bin` column written by `get_prevailing_direction`:
`(self.data['wind_direction'] / 22.5).round() % 16`. -/
def prevBins (rows : List Row) : List ℚ :=
  rows.map (fun r => prevBin r.wind_direction)

/-- `most_common_bin = self.data['direction_bin'].mode()[0]`. -/
def mostCommonBin (rows : List Row) : ℚ :=
  modeFirst (prevBins rows)

/-- `(self.data['direction_bin'] == most_common_bin).sum() / len(self.data) * 100`. -/
def prevailingPct (rows : List Row) : ℚ :=
  (cnt (mostCommonBin rows) (prevBins rows) : ℚ) / (rows.length : ℚ) * 100

/-- `get_prevailing_direction`: writes the rounding-based 16-bin
`direction_bin` column, takes the first mode, and returns
`(bin * 22.5, count(bin) / len * 100)`. -/
def get_prevailing_direction : Option Frame → Except AErr ((ℚ × ℚ) × Option Frame)
  | none => .error .emptyDataset
  | some f =>
    if f.base.rows.isEmpty then .error .emptyDataset
    else
      .ok ((mostCommonBin f.base.rows * (45 / 2), prevailingPct f.base.rows),
        some { f with direction_bin := some (prevBins f.base.rows) })

/-- Hour component of a naive timestamp counted in seconds
(`timestamp.dt.hour`). -/
def hourOf (t : ℕ) : ℕ :=
  t / 3600 % 24

/-- The per-hour aggregate `['mean', 'std', 'min', 'max']` of
`analyze_daily_pattern`; `std` is carried squared, as in `BasicStats`. -/
structure HourStats where
  mean : ℚ
  std_sq : Option ℚ
  min : ℚ
  max : ℚ
deriving DecidableEq, Repr

/-- The aggregate of one group of speeds. -/
def hourStatsOf (xs : List ℚ) : HourStats :=
  { mean := listMean xs, std_sq := listVar? xs, min := listMin xs, max := listMax xs }

/-- The `hour` helper column: `self.data['timestamp'].dt.hour`. -/
def hoursOf (rows : List Row) : List ℕ :=
  rows.map (fun r => hourOf r.ts)

/-- `groupby('hour')['wind_speed'].agg(['mean', 'std', 'min', 'max'])`:
only the hour keys present in the data, sorted ascending.  Since every
hour value lies in `0 .. 23`, those keys are exactly the members of
`List.range 24` that occur in the hour column. -/
def dailyTable (rows : List Row) : List (ℕ × HourStats) :=
  ((List.range 24).filter (fun h => decide (h ∈ hoursOf rows))).map
    (fun h => (h, hourStatsOf (speeds (rows.filter (fun r => decide (hourOf r.ts = h))))))

/-- `analyze_daily_pattern`: requires the timestamp column, writes the
`hour` helper column, and groups the speed column by hour. -/
def analyze_daily_pattern : Option Frame → Except AErr (List (ℕ × HourStats) × Option Frame)
  | none => .error .emptyDataset
  | some f =>
    if f.base.rows.isEmpty then .error .emptyDataset
    else if !f.base.hasTimestamp then .error .missingTimestamp
    else .ok (dailyTable f.base.rows, some { f with hour := some (hoursOf f.base.rows) })

/-- `calculate_power_density(air_density)`:
`0.5 * air_density * wind_speed ** 3` over the speed column. -/
def calculate_power_density (air_density : ℚ) : Option Frame → Except AErr (List ℚ × Option Frame)
  | none => .error .emptyDataset
  | some f =>
    if f.base.rows.isEmpty then .error .emptyDataset
    else .ok (f.base.rows.map (fun r => 1 / 2 * air_density * r.wind_speed ^ 3), some f)

/-- The numeric content of the formatted report of `get_summary_report`:
observation count, basic statistics, prevailing direction and percentage,
calm/strong counts at the default thresholds 2.0 / 10.0, and the mean
power density at the default air density 1.225.  The report string is a
fixed template over these values, so equal records give equal reports. -/
structure Report where
  total_observations : ℕ
  stats : BasicStats
  prevailing_direction : ℚ
  prevailing_percentage : ℚ
  calm_periods : ℕ
  strong_events : ℕ
  avg_power_density : ℚ
deriving DecidableEq, Repr

/-- `get_summary_report`: composes `get_basic_statistics`,
`get_prevailing_direction` (which writes `direction_bin`),
`detect_calm_periods(2.0)`, `detect_strong_wind_events(10.0)` and the mean
of `calculate_power_density(1.225)`, threading the mutated frame through. -/
def get_summary_report : Option Frame → Except AErr (Report × Option Frame)
  | none => .error .emptyDataset
  | some f =>
    if f.base.rows.isEmpty then .error .emptyDataset
    else
      match get_basic_statistics (some f) with
      | .error e => .error e
      | .ok (st, d1) =>
        match get_prevailing_direction d1 with
        | .error e => .error e
        | .ok ((dir, pct), d2) =>
          match detect_calm_periods 2 d2 with
          | .error e => .error e
          | .ok (calm, d3) =>
            match detect_strong_wind_events 10 d3 with
            | .error e => .error e
            | .ok (strong, d4) =>
              match calculate_power_density (49 / 40) d4 with
              | .error e => .error e
              | .ok (power, d5) =>
                .ok ({ total_observations := f.base.rows.length
                       stats := st
                       prevailing_direction := dir
                       prevailing_percentage := pct
                       calm_periods := calm.rows.length
                       strong_events := strong.rows.length
                       avg_power_density := listMean power }, d5)

/-- The query operations of the analyzer, with their arguments. -/
inductive Query where
  | basicStatistics
  | windRose (bins : ℕ)
  | calmPeriods (threshold : ℚ)
  | strongWindEvents (threshold : ℚ)
  | gustFactor (window : ℕ)
  | prevailingDirection
  | dailyPattern
  | powerDensity (airDensity : ℚ)
  | summaryReport
deriving DecidableEq, Repr

/-- The possible results of a query operation. -/
inductive QueryResult where
  | stats (s : BasicStats)
  | rose (w : WindRose)
  | view (v : FrameView)
  | series (xs : List (Option ℚ))
  | qseries (xs : List ℚ)
  | dirpct (p : ℚ × ℚ)
  | daily (m : List (ℕ × HourStats))
  | report (r : Report)
deriving DecidableEq, Repr

/-- Dispatch one query operation on the analyzer state. -/
def runQuery : Query → Option Frame → Except AErr (QueryResult × Option Frame)
  | .basicStatistics, d => (get_basic_statistics d).map (fun p => (.stats p.1, p.2))
  | .windRose bins, d => (get_wind_rose_data bins d).map (fun p => (.rose p.1, p.2))
  | .calmPeriods t, d => (detect_calm_periods t d).map (fun p => (.view p.1, p.2))
  | .strongWindEvents t, d => (detect_strong_wind_events t d).map (fun p => (.view p.1, p.2))
  | .gustFactor w, d => (calculate_gust_factor w d).map (fun p => (.series p.1, p.2))
  | .prevailingDirection, d => (get_prevailing_direction d).map (fun p => (.dirpct p.1, p.2))
  | .dailyPattern, d => (analyze_daily_pattern d).map (fun p => (.daily p.1, p.2))
  | .powerDensity ρ, d => (calculate_power_density ρ d).map (fun p => (.qseries p.1, p.2))
  | .summaryReport, d => (get_summary_report d).map (fun p => (.report p.1, p.2))

/-- The analyzer state after one query: a raised error leaves `self.data`
untouched. -/
def postOf (q : Query) (d : Option Frame) : Option Frame :=
  match runQuery q d with
  | .ok (_, d') => d'
  | .error _ => d

/-- The result (without the state) of one query. -/
def resOf (q : Query) (d : Option Frame) : Except AErr QueryResult :=
  (runQuery q d).map Prod.fst

/-- The analyzer state after a sequence of queries. -/
def applyQueries (qs : List Query) (d : Option Frame) : Option Frame :=
  qs.foldl (fun s q => postOf q s) d

/-- A one-row frame (speed 5): pandas gives `std = NaN` here. -/
def exF1 : Frame :=
  { base := { hasTimestamp := true, rows := [{ ts := 0, wind_speed := 5, wind_direction := 0 }] }
    direction_bin := none
    hour := none }

/-- A three-row example frame used by the witnesses. -/
def exF3 : Frame :=
  { base :=
      { hasTimestamp := true
        rows :=
          [{ ts := 3600, wind_speed := 5, wind_direction := 10 },
           { ts := 7200, wind_speed := 10, wind_direction := 95 },
           { ts := 46800, wind_speed := 3, wind_direction := 10 }] }
    direction_bin := none
    hour := none }

/-! ## Lemmas about list extrema and the mean -/

lemma listMax_cons (x y : ℚ) (t : List ℚ) :
    listMax (x :: y :: t) = max x (listMax (y :: t)) := rfl

lemma listMin_cons (x y : ℚ) (t : List ℚ) :
    listMin (x :: y :: t) = min x (listMin (y :: t)) := rfl

lemma le_listMax (l : List ℚ) (x : ℚ) (h : x ∈ l) : x ≤ listMax l := by
  induction l with
  | nil => cases h
  | cons y t ih =>
    cases t with
    | nil =>
      rcases List.mem_singleton.mp h with rfl
      simp [listMax]
    | cons z s =>
      rw [listMax_cons]
      rcases List.mem_cons.mp h with rfl | hm
      · exact le_max_left _ _
      · exact le_trans (ih hm) (le_max_right _ _)

lemma listMin_le (l : List ℚ) (x : ℚ) (h : x ∈ l) : listMin l ≤ x := by
  induction l with
  | nil => cases h
  | cons y t ih =>
    cases t with
    | nil =>
      rcases List.mem_singleton.mp h with rfl
      simp [listMin]
    | cons z s =>
      rw [listMin_cons]
      rcases List.mem_cons.mp h with rfl | hm
      · exact min_le_left _ _
      · exact le_trans (min_le_right _ _) (ih hm)

lemma listMax_mem (l : List ℚ) (h : l ≠ []) : listMax l ∈ l := by
  induction l with
  | nil => exact absurd rfl h
  | cons y t ih =>
    cases t with
    | nil => simp [listMax]
    | cons z s =>
      rw [listMax_cons]
      rcases le_total y (listMax (z :: s)) with hle | hle
      · rw [max_eq_right hle]
        exact List.mem_cons_of_mem _ (ih (by simp))
      · rw [max_eq_left hle]
        exact List.mem_cons_self _ _

lemma listMin_mem (l : List ℚ) (h : l ≠ []) : listMin l ∈ l := by
  induction l with
  | nil => exact absurd rfl h
  | cons y t ih =>
    cases t with
    | nil => simp [listMin]
    | cons z s =>
      rw [listMin_cons]
      rcases le_total y (listMin (z :: s)) with hle | hle
      · rw [min_eq_left hle]
        exact List.mem_cons_self _ _
      · rw [min_eq_right hle]
        exact List.mem_cons_of_mem _ (ih (by simp))

lemma sum_le_length_mul_listMax (l : List ℚ) : l.sum ≤ (l.length : ℚ) * listMax l := by
  induction l with
  | nil => simp
  | cons y t ih =>
    cases t with
    | nil => simp [listMax]
    | cons z s =>
      rw [listMax_cons, List.sum_cons]
      have h1 : y ≤ max y (listMax (z :: s)) := le_max_left _ _
      have h2 : (z :: s).sum ≤ ((z :: s).length : ℚ) * max y (listMax (z :: s)) :=
        le_trans ih (by
          apply mul_le_mul_of_nonneg_left (le_max_right _ _)
          positivity)
      calc y + (z :: s).sum ≤ max y (listMax (z :: s)) +
            ((z :: s).length : ℚ) * max y (listMax (z :: s)) := add_le_add h1 h2
        _ = ((y :: z :: s).length : ℚ) * max y (listMax (z :: s)) := by
            simp [List.length_cons]
            ring

lemma length_mul_listMin_le_sum (l : List ℚ) : (l.length : ℚ) * listMin l ≤ l.sum := by
  induction l with
  | nil => simp
  | cons y t ih =>
    cases t with
    | nil => simp [listMin]
    | cons z s =>
      rw [listMin_cons, List.sum_cons]
      have h1 : min y (listMin (z :: s)) ≤ y := min_le_left _ _
      have h2 : ((z :: s).length : ℚ) * min y (listMin (z :: s)) ≤ (z :: s).sum :=
        le_trans (by
          apply mul_le_mul_of_nonneg_left (min_le_right _ _)
          positivity) ih
      calc ((y :: z :: s).length : ℚ) * min y (listMin (z :: s))
          = min y (listMin (z :: s)) +
            ((z :: s).length : ℚ) * min y (listMin (z :: s)) := by
            simp [List.length_cons]
            ring
        _ ≤ y + (z :: s).sum := add_le_add h1 h2

lemma listMean_le_listMax (l : List ℚ) (h : l ≠ []) : listMean l ≤ listMax l := by
  have hn : 0 < (l.length : ℚ) := by
    have := List.length_pos.mpr h
    exact_mod_cast this
  rw [listMean, div_le_iff₀ hn]
  rw [mul_comm]
  exact sum_le_length_mul_listMax l

lemma listMin_le_listMean (l : List ℚ) (h : l ≠ []) : listMin l ≤ listMean l := by
  have hn : 0 < (l.length : ℚ) := by
    have := List.length_pos.mpr h
    exact_mod_cast this
  rw [listMean, le_div_iff₀ hn]
  rw [mul_comm]
  exact length_mul_listMin_le_sum l

lemma listMean_nonneg (l : List ℚ) (h : ∀ x ∈ l, 0 ≤ x) : 0 ≤ listMean l := by
  rw [listMean]
  apply div_nonneg (List.sum_nonneg h)
  positivity

/-! ## C5: basic statistics -/

/-- C5 (counterexample): on the one-row dataset `exF1` the code's
`std_speed` is pandas' `NaN` (modelled `none`), because the sample
standard deviation divides by `n - 1 = 0`; so the claim's "stddev … ≥ 0"
fails for this non-empty dataset. -/
theorem C5_counterexample :
    get_basic_statistics (some exF1) = .ok (basicStatsOf exF1.base.rows, some exF1) ∧
    (basicStatsOf exF1.base.rows).std_speed_sq = none ∧
    ¬ ∃ v : ℚ, (basicStatsOf exF1.base.rows).std_speed_sq = some v ∧ 0 ≤ v := by
  refine ⟨rfl, rfl, ?_⟩
  rintro ⟨v, hv, -⟩
  rw [show (basicStatsOf exF1.base.rows).std_speed_sq = none from rfl] at hv
  cases hv

/-- C5 (amended): for every non-empty dataset `BasicStatistics` succeeds
with `min ≤ mean ≤ max` where `min`/`max` are the raw extrema of the
speeds; for a dataset of at least two samples the stddev is the sample
standard deviation (`n - 1` denominator, carried here as its square) and
is `≥ 0`, while for a single sample it is missing (`NaN`). -/
theorem C5_basic_statistics (f : Frame) (hne : f.base.rows ≠ []) :
    get_basic_statistics (some f) = .ok (basicStatsOf f.base.rows, some f) ∧
    (basicStatsOf f.base.rows).min_speed ≤ (basicStatsOf f.base.rows).mean_speed ∧
    (basicStatsOf f.base.rows).mean_speed ≤ (basicStatsOf f.base.rows).max_speed ∧
    (∀ r ∈ f.base.rows,
      (basicStatsOf f.base.rows).min_speed ≤ r.wind_speed ∧
      r.wind_speed ≤ (basicStatsOf f.base.rows).max_speed) ∧
    (f.base.rows.length = 1 → (basicStatsOf f.base.rows).std_speed_sq = none) ∧
    (2 ≤ f.base.rows.length →
      ∃ v : ℚ, (basicStatsOf f.base.rows).std_speed_sq = some v ∧
        v = ((speeds f.base.rows).map
              (fun x => (x - (basicStatsOf f.base.rows).mean_speed) ^ 2)).sum /
            ((f.base.rows.length - 1 : ℕ) : ℚ) ∧
        0 ≤ v) := by
  have hsp : speeds f.base.rows ≠ [] := by
    simp [speeds, hne]
  have hemp : f.base.rows.isEmpty = false := by
    simp [List.isEmpty_iff, hne]
  refine ⟨by simp [get_basic_statistics, hemp], ?_, ?_, ?_, ?_, ?_⟩
  · exact listMin_le_listMean _ hsp
  · exact listMean_le_listMax _ hsp
  · intro r hr
    have hm : r.wind_speed ∈ speeds f.base.rows := List.mem_map_of_mem _ hr
    exact ⟨listMin_le _ _ hm, le_listMax _ _ hm⟩
  · intro h1
    simp [basicStatsOf, listVar?, speeds, h1]
  · intro h2
    have hlen : (speeds f.base.rows).length = f.base.rows.length := by
      simp [speeds]
    refine ⟨_, ?_, rfl, ?_⟩
    · rw [show (basicStatsOf f.base.rows).std_speed_sq = listVar? (speeds f.base.rows) from rfl]
      rw [listVar?, if_neg (by rw [hlen]; omega), hlen]
      rfl
    · apply div_nonneg
      · apply List.sum_nonneg
        intro x hx
        rcases List.mem_map.mp hx with ⟨y, -, rfl⟩
        positivity
      · positivity

/-! ## C6: calm periods and strong wind events -/

lemma maskList_map_eq_filter {α : Type} (p : α → Bool) (l : List α) :
    maskList (l.map p) l = l.filter p := by
  induction l with
  | nil => rfl
  | cons x t ih =>
    simp only [maskList] at ih ⊢
    rw [List.map_cons, List.zip_cons_cons, List.filter_cons, List.filter_cons]
    cases hp : p x <;> simp [hp, ih]

/-- C6: for every non-empty dataset and every threshold `t`,
`detect_calm_periods t` returns exactly the rows with `speed < t` and
`detect_strong_wind_events t` exactly the rows with `speed > t`, each in
dataset order (a `List.filter` of the rows); no sample satisfies both
strict predicates.  An empty match yields the empty list, not an error,
since the operations succeed on every non-empty dataset. -/
theorem C6_calm_strong (f : Frame) (t : ℚ) (hne : f.base.rows ≠ []) :
    detect_calm_periods t (some f) =
      .ok (filterFrame (fun r => decide (r.wind_speed < t)) f, some f) ∧
    (filterFrame (fun r => decide (r.wind_speed < t)) f).rows =
      f.base.rows.filter (fun r => decide (r.wind_speed < t)) ∧
    detect_strong_wind_events t (some f) =
      .ok (filterFrame (fun r => decide (t < r.wind_speed)) f, some f) ∧
    (filterFrame (fun r => decide (t < r.wind_speed)) f).rows =
      f.base.rows.filter (fun r => decide (t < r.wind_speed)) ∧
    ∀ r ∈ f.base.rows, ¬(r.wind_speed < t ∧ t < r.wind_speed) := by
  have hemp : f.base.rows.isEmpty = false := by
    simp [List.isEmpty_iff, hne]
  refine ⟨by simp [detect_calm_periods, hemp], ?_, by simp [detect_strong_wind_events, hemp],
    ?_, ?_⟩
  · exact maskList_map_eq_filter _ _
  · exact maskList_map_eq_filter _ _
  · rintro r - ⟨h1, h2⟩
    exact absurd (lt_trans h1 h2) (lt_irrefl _)

/-- Witness for C6 at `exF3` with threshold 4: the calm view keeps only
the speed-3 row, the strong view only the speed-5 and speed-10 rows. -/
theorem C6_calm_strong_witness :
    detect_calm_periods 4 (some exF3) =
      .ok (filterFrame (fun r => decide (r.wind_speed < 4)) exF3, some exF3) ∧
    (filterFrame (fun r => decide (r.wind_speed < 4)) exF3).rows =
      [{ ts := 46800, wind_speed := 3, wind_direction := 10 }] ∧
    (filterFrame (fun r => decide ((4 : ℚ) < r.wind_speed)) exF3).rows =
      [{ ts := 3600, wind_speed := 5, wind_direction := 10 },
       { ts := 7200, wind_speed := 10, wind_direction := 95 }] :=
  ⟨(C6_calm_strong exF3 4 (by decide)).1, by decide, by decide⟩

/-! ## C8: power density -/

/-- C8 (counterexample): the claim quantifies over every `airDensity`, but
at `airDensity = -1` the single power-density value of `exF1` is
`0.5 * (-1) * 5³ = -125/2 < 0` even though the speed `5` is nonnegative,
so "each element is ≥ 0 whenever speed[i] ≥ 0" fails as stated. -/
theorem C8_counterexample :
    calculate_power_density (-1) (some exF1) = .ok ([-(125 / 2)], some exF1) ∧
    (0 : ℚ) ≤ 5 ∧ ¬ (0 : ℚ) ≤ -(125 / 2 : ℚ) := by
  refine ⟨?_, by norm_num, by norm_num⟩
  norm_num [calculate_power_density, exF1]

/-- C8 (amended): for every non-empty dataset and every `airDensity`,
`PowerDensity` succeeds with the list `0.5 * airDensity * speed³` over the
rows in dataset order (same length); each element is `≥ 0` whenever the
speed is `≥ 0` **and** `airDensity ≥ 0`; and doubling the air density
doubles every element. -/
theorem C8_power_density (f : Frame) (ρ : ℚ) (hne : f.base.rows ≠ []) :
    calculate_power_density ρ (some f) =
      .ok (f.base.rows.map (fun r => 1 / 2 * ρ * r.wind_speed ^ 3), some f) ∧
    (f.base.rows.map (fun r => 1 / 2 * ρ * r.wind_speed ^ 3)).length = f.base.rows.length ∧
    (∀ r ∈ f.base.rows, 0 ≤ ρ → 0 ≤ r.wind_speed → 0 ≤ 1 / 2 * ρ * r.wind_speed ^ 3) ∧
    f.base.rows.map (fun r => 1 / 2 * (2 * ρ) * r.wind_speed ^ 3) =
      (f.base.rows.map (fun r => 1 / 2 * ρ * r.wind_speed ^ 3)).map (fun x => 2 * x) := by
  have hemp : f.base.rows.isEmpty = false := by
    simp [List.isEmpty_iff, hne]
  refine ⟨by simp [calculate_power_density, hemp], by simp, ?_, ?_⟩
  · intro r _ hρ hs
    exact mul_nonneg (mul_nonneg (by norm_num) hρ) (pow_nonneg hs 3)
  · rw [List.map_map]
    apply List.map_congr_left
    intro r _
    simp only [Function.comp_apply]
    ring

/-- Witness for C8 at `exF3` with `airDensity = 49/40` (the default
1.225): the values are `0.6125 · speed³`, and doubling the density doubles
them. -/
theorem C8_power_density_witness :
    calculate_power_density (49 / 40) (some exF3) =
      .ok ([1225 / 16, 1225 / 2, 1323 / 80], some exF3) ∧
    exF3.base.rows.map (fun r => 1 / 2 * (2 * (49 / 40)) * r.wind_speed ^ 3) =
      (exF3.base.rows.map (fun r => 1 / 2 * (49 / 40) * r.wind_speed ^ 3)).map
        (fun x => 2 * x) :=
  ⟨by rw [(C8_power_density exF3 (49 / 40) (by decide)).1]; norm_num [exF3],
   (C8_power_density exF3 (49 / 40) (by decide)).2.2.2⟩

/-- Witness for C5 (amended) at the three-row frame `exF3`:
`min = 3 ≤ mean = 6 ≤ max = 10`, and the squared stddev is
`((5-6)² + (10-6)² + (3-6)²) / 2 = 13`. -/
theorem C5_basic_statistics_witness :
    get_basic_statistics (some exF3) = .ok (basicStatsOf exF3.base.rows, some exF3) ∧
    (basicStatsOf exF3.base.rows).min_speed ≤ (basicStatsOf exF3.base.rows).mean_speed ∧
    (basicStatsOf exF3.base.rows).mean_speed ≤ (basicStatsOf exF3.base.rows).max_speed ∧
    basicStatsOf exF3.base.rows =
      { mean_speed := 6, median_speed := 5, std_speed_sq := some 13,
        min_speed := 3, max_speed := 10 } :=
  let h := C5_basic_statistics exF3 (by decide)
  ⟨h.1, h.2.1, h.2.2.1, by
    norm_num [basicStatsOf, exF3, speeds, listMean, medianQ, sortQ, insertSorted,
      listVar?, listMin, listMax]⟩

/-! ## C2 and C10: gust factor -/

lemma zipWith_map_same {α β γ δ : Type} (h : β → γ → δ) (g1 : α → β) (g2 : α → γ)
    (l : List α) :
    List.zipWith h (l.map g1) (l.map g2) = l.map (fun x => h (g1 x) (g2 x)) := by
  induction l with
  | nil => rfl
  | cons x t ih => simp [ih]

/-- Pointwise characterization of the rolling quotient: at position `i`
the value is missing exactly when fewer than `window` samples are
available or the trailing window's mean is zero, and is `max / mean` of
the trailing window otherwise. -/
lemma gustSeries_eq (window : ℕ) (xs : List ℚ) :
    gustSeries window xs =
      (List.range xs.length).map (fun i =>
        if i + 1 < window ∨ listMean (windowSlice window xs i) = 0 then none
        else some (listMax (windowSlice window xs i) / listMean (windowSlice window xs i))) := by
  rw [gustSeries, rollingWith, rollingWith, zipWith_map_same]
  apply List.map_congr_left
  intro i _
  by_cases h1 : i + 1 < window
  · simp [h1, optDiv]
  · by_cases h2 : listMean (windowSlice window xs i) = 0
    · simp [h1, h2, optDiv]
    · simp [h1, h2, optDiv]

/-- C2: for every non-empty dataset, every `window ≥ 1` and every index
`i` of the dataset, `GustFactor(window)` succeeds with a sequence of the
same length as the dataset whose value at `i` is missing exactly when
`i + 1 < window` or the mean speed over positions
`max(0, i-window+1) .. i` is 0, and otherwise equals the maximum over
those positions divided by their mean.  (`windowSlice` is exactly the
positions `max(0, i+1-window) .. i`.) -/
theorem C2_gust_factor (f : Frame) (window i : ℕ) (hne : f.base.rows ≠ [])
    (_hw : 1 ≤ window) (hi : i < f.base.rows.length) :
    calculate_gust_factor window (some f) =
      .ok (gustSeries window (speeds f.base.rows), some f) ∧
    (gustSeries window (speeds f.base.rows)).length = f.base.rows.length ∧
    (gustSeries window (speeds f.base.rows))[i]? =
      some (if i + 1 < window ∨ listMean (windowSlice window (speeds f.base.rows) i) = 0
            then none
            else some (listMax (windowSlice window (speeds f.base.rows) i) /
                       listMean (windowSlice window (speeds f.base.rows) i))) := by
  have hemp : f.base.rows.isEmpty = false := by
    simp [List.isEmpty_iff, hne]
  have hlen : (speeds f.base.rows).length = f.base.rows.length := by
    simp [speeds]
  have hi' : i < (speeds f.base.rows).length := by
    rw [hlen]; exact hi
  refine ⟨by simp [calculate_gust_factor, hemp], ?_, ?_⟩
  · rw [gustSeries_eq]
    simp [hlen]
  · rw [gustSeries_eq]
    simp [List.getElem?_map, List.getElem?_range, hi']

/-- Witness for C2 at `exF3` with `window = 2`, `i = 1`: both samples are
available, the window is `[5, 10]`, so the value is `10 / (15/2) = 4/3`. -/
theorem C2_gust_factor_witness :
    calculate_gust_factor 2 (some exF3) =
      .ok (gustSeries 2 (speeds exF3.base.rows), some exF3) ∧
    (gustSeries 2 (speeds exF3.base.rows)).length = exF3.base.rows.length ∧
    (gustSeries 2 (speeds exF3.base.rows))[1]? =
      some (if 1 + 1 < 2 ∨ listMean (windowSlice 2 (speeds exF3.base.rows) 1) = 0
            then none
            else some (listMax (windowSlice 2 (speeds exF3.base.rows) 1) /
                       listMean (windowSlice 2 (speeds exF3.base.rows) 1))) :=
  C2_gust_factor exF3 2 1 (by decide) (by norm_num) (by decide)

/-- C10: on a dataset of nonnegative speeds, wherever the gust factor is
defined it is at least 1: the window maximum is at least the window mean,
and the mean is strictly positive at every defined position. -/
theorem C10_gust_ge_one (f : Frame) (window i : ℕ) (g : List (Option ℚ)) (v : ℚ)
    (hsp : ∀ r ∈ f.base.rows, 0 ≤ r.wind_speed) (hw : 1 ≤ window)
    (hrun : calculate_gust_factor window (some f) = .ok (g, some f))
    (hv : g[i]? = some (some v)) : 1 ≤ v := by
  have hg : g = gustSeries window (speeds f.base.rows) := by
    by_cases hd : f.base.rows.isEmpty
    · simp [calculate_gust_factor, hd] at hrun
    · simp only [calculate_gust_factor, hd, if_false, Bool.false_eq_true] at hrun
      exact ((Prod.mk.injEq _ _ _ _).mp (Except.ok.inj hrun)).1.symm
  subst hg
  rw [gustSeries_eq] at hv
  by_cases hi : i < (speeds f.base.rows).length
  · rw [List.getElem?_map, List.getElem?_range hi] at hv
    simp only [Option.map_some'] at hv
    have hval := Option.some.inj hv
    by_cases hc : i + 1 < window ∨ listMean (windowSlice window (speeds f.base.rows) i) = 0
    · rw [if_pos hc] at hval
      cases hval
    · rw [if_neg hc] at hval
      have hmne : listMean (windowSlice window (speeds f.base.rows) i) ≠ 0 :=
        fun h => hc (Or.inr h)
      have hpos : 0 < (windowSlice window (speeds f.base.rows) i).length := by
        rw [windowSlice, List.length_drop, List.length_take]
        omega
      have hsne : windowSlice window (speeds f.base.rows) i ≠ [] :=
        List.length_pos.mp hpos
      have hnn : ∀ x ∈ windowSlice window (speeds f.base.rows) i, 0 ≤ x := by
        intro x hx
        have hx1 : x ∈ speeds f.base.rows :=
          List.take_subset _ _ (List.drop_subset _ _ hx)
        rcases List.mem_map.mp hx1 with ⟨r, hr, rfl⟩
        exact hsp r hr
      have hmpos : 0 < listMean (windowSlice window (speeds f.base.rows) i) :=
        lt_of_le_of_ne (listMean_nonneg _ hnn) (Ne.symm hmne)
      rw [← Option.some.inj hval]
      exact (one_le_div hmpos).mpr (listMean_le_listMax _ hsne)
  · rw [List.getElem?_eq_none] at hv
    · cases hv
    · simpa using not_lt.mp hi

/-- Witness for C10 at `exF3` with `window = 2`, position `i = 1`: the
defined gust factor `10 / (15/2) = 4/3` is at least 1. -/
theorem C10_gust_ge_one_witness : (1 : ℚ) ≤ 4 / 3 :=
  C10_gust_ge_one exF3 2 1 (gustSeries 2 (speeds exF3.base.rows)) (4 / 3)
    (by decide) (by norm_num) (by rfl)
    (by
      rw [gustSeries_eq]
      have h3 : (speeds exF3.base.rows).length = 3 := by decide
      rw [h3, List.getElem?_map, List.getElem?_range (by norm_num)]
      norm_num [windowSlice, listMean, listMax, speeds, exF3, max_def])

/-! ## C1: the empty-dataset error -/

/-- C1: a query operation fails with `EmptyDatasetError` exactly when no
dataset has been loaded or the loaded dataset has zero samples; on a
non-empty dataset no operation fails with `EmptyDatasetError`
(`analyze_daily_pattern` may still fail, but with
`MissingTimestampError`). -/
theorem C1_empty_dataset (q : Query) (d : Option Frame) :
    runQuery q d = .error .emptyDataset ↔
      (d = none ∨ ∃ f, d = some f ∧ f.base.rows = []) := by
  cases d with
  | none =>
    constructor
    · intro _
      exact Or.inl rfl
    · intro _
      cases q <;> rfl
  | some f =>
    by_cases hε : f.base.rows.isEmpty
    · have hnil : f.base.rows = [] := List.isEmpty_iff.mp hε
      constructor
      · intro _
        exact Or.inr ⟨f, rfl, hnil⟩
      · intro _
        cases q <;>
          simp [runQuery, Except.map, get_basic_statistics, get_wind_rose_data,
            detect_calm_periods, detect_strong_wind_events, calculate_gust_factor,
            get_prevailing_direction, analyze_daily_pattern, calculate_power_density,
            get_summary_report, hε]
    · have hε' : f.base.rows.isEmpty = false := by
        simpa using hε
      constructor
      · intro h
        exfalso
        cases q <;> cases hts : f.base.hasTimestamp <;>
          simp [runQuery, Except.map, get_basic_statistics, get_wind_rose_data,
            detect_calm_periods, detect_strong_wind_events, calculate_gust_factor,
            get_prevailing_direction, analyze_daily_pattern, calculate_power_density,
            get_summary_report, hε', hts] at h
      · rintro (h | ⟨g, hg, hrows⟩)
        · cases h
        · cases hg
          exact absurd hrows (by simpa [List.isEmpty_iff] using hε)

/-! ## C3: prevailing direction -/

lemma cnt_pos_of_mem (v : ℚ) (l : List ℚ) (h : v ∈ l) : 1 ≤ cnt v l := by
  have hm : v ∈ l.filter (fun y => decide (y = v)) :=
    List.mem_filter.mpr ⟨h, by simp⟩
  have hp := List.length_pos.mpr (List.ne_nil_of_mem hm)
  rw [cnt]
  omega

lemma cnt_le_length (v : ℚ) (l : List ℚ) : cnt v l ≤ l.length :=
  List.length_filter_le _ _

lemma cnt_eq_length_of_all (v : ℚ) (l : List ℚ) (hall : ∀ x ∈ l, x = v) :
    cnt v l = l.length := by
  rw [cnt, List.filter_eq_self.mpr (fun x hx => by simp [hall x hx])]

/-- Invariant of the selection loop `pickMode`: the result is the starting
candidate or a later value, its count dominates the count of the starting
candidate and of every later value, and on a tied count the result is the
smaller value. -/
lemma pickMode_spec (l : List ℚ) (vs : List ℚ) (b : ℚ) :
    (pickMode l b vs = b ∨ pickMode l b vs ∈ vs) ∧
    (cnt b l ≤ cnt (pickMode l b vs) l ∧
      (cnt b l = cnt (pickMode l b vs) l → pickMode l b vs ≤ b)) ∧
    (∀ v ∈ vs, cnt v l ≤ cnt (pickMode l b vs) l ∧
      (cnt v l = cnt (pickMode l b vs) l → pickMode l b vs ≤ v)) := by
  induction vs generalizing b with
  | nil => simp [pickMode]
  | cons v vs ih =>
    by_cases hcond : cnt b l < cnt v l ∨ (cnt v l = cnt b l ∧ v < b)
    · rw [show pickMode l b (v :: vs) = pickMode l v vs from by rw [pickMode, if_pos hcond]]
      obtain ⟨hmem, hself, hall⟩ := ih v
      refine ⟨?_, ?_, ?_⟩
      · rcases hmem with h | h
        · exact Or.inr (by rw [h]; exact List.mem_cons_self _ _)
        · exact Or.inr (List.mem_cons_of_mem _ h)
      · rcases hcond with hlt | ⟨heq, hvb⟩
        · constructor
          · exact le_trans (le_of_lt hlt) hself.1
          · intro htie
            have := lt_of_lt_of_le hlt hself.1
            omega
        · constructor
          · rw [← heq]
            exact hself.1
          · intro htie
            have hpv : pickMode l v vs ≤ v := hself.2 (by omega)
            exact le_of_lt (lt_of_le_of_lt hpv hvb)
      · intro w hw
        rcases List.mem_cons.mp hw with rfl | hw'
        · exact hself
        · exact hall w hw'
    · rw [show pickMode l b (v :: vs) = pickMode l b vs from by rw [pickMode, if_neg hcond]]
      obtain ⟨hmem, hself, hall⟩ := ih b
      push_neg at hcond
      refine ⟨?_, hself, ?_⟩
      · rcases hmem with h | h
        · exact Or.inl h
        · exact Or.inr (List.mem_cons_of_mem _ h)
      · intro w hw
        rcases List.mem_cons.mp hw with rfl | hw'
        · have hwb : cnt w l ≤ cnt b l := hcond.1
          constructor
          · exact le_trans hwb hself.1
          · intro htie
            have hbtie : cnt b l = cnt (pickMode l b vs) l := by omega
            have h1 : pickMode l b vs ≤ b := hself.2 hbtie
            have h2 : b ≤ w := hcond.2 (by omega)
            exact le_trans h1 h2
        · exact hall w hw'

/-- `modeFirst` of a non-empty list is a member of maximal count, and is
the least member among those of maximal count. -/
lemma modeFirst_spec (l : List ℚ) (h : l ≠ []) :
    modeFirst l ∈ l ∧
    ∀ v ∈ l, cnt v l ≤ cnt (modeFirst l) l ∧
      (cnt v l = cnt (modeFirst l) l → modeFirst l ≤ v) := by
  cases l with
  | nil => exact absurd rfl h
  | cons x xs =>
    obtain ⟨hmem, hself, hall⟩ := pickMode_spec (x :: xs) xs x
    rw [show modeFirst (x :: xs) = pickMode (x :: xs) x xs from rfl]
    refine ⟨?_, ?_⟩
    · rcases hmem with h' | h'
      · rw [h']
        exact List.mem_cons_self _ _
      · exact List.mem_cons_of_mem _ h'
    · intro v hv
      rcases List.mem_cons.mp hv with rfl | hv'
      · exact hself
      · exact hall v hv'

/-- Each prevailing-direction bin value lies in `[0, 16)`: the rounded
quotient is reduced modulo 16 with a nonnegative remainder. -/
lemma prevBin_range (dir : ℚ) : 0 ≤ prevBin dir ∧ prevBin dir < 16 := by
  rw [prevBin]
  constructor
  · exact_mod_cast Int.emod_nonneg _ (by norm_num)
  · exact_mod_cast Int.emod_lt_of_pos _ (by norm_num)

/-- C3: for every non-empty dataset with directions in `[0, 360)`,
`get_prevailing_direction` bins each sample by
`round(direction / 22.5) mod 16` (`round` = the numeric library's round
half to even), picks the bin of highest count with ties broken by the
lowest bin value, and returns `(bin * 22.5, count(bin)/total*100)`; the
direction lies in `[0, 360)`, the percentage in `(0, 100]`, and when all
directions are identical the percentage is 100. -/
theorem C3_prevailing_direction (f : Frame) (hne : f.base.rows ≠ [])
    (_hdir : ∀ r ∈ f.base.rows, 0 ≤ r.wind_direction ∧ r.wind_direction < 360) :
    get_prevailing_direction (some f) =
      .ok ((mostCommonBin f.base.rows * (45 / 2), prevailingPct f.base.rows),
        some { f with direction_bin := some (prevBins f.base.rows) }) ∧
    mostCommonBin f.base.rows ∈ prevBins f.base.rows ∧
    (∀ v ∈ prevBins f.base.rows,
      cnt v (prevBins f.base.rows) ≤ cnt (mostCommonBin f.base.rows) (prevBins f.base.rows) ∧
      (cnt v (prevBins f.base.rows) = cnt (mostCommonBin f.base.rows) (prevBins f.base.rows) →
        mostCommonBin f.base.rows ≤ v)) ∧
    0 ≤ mostCommonBin f.base.rows * (45 / 2) ∧
    mostCommonBin f.base.rows * (45 / 2) < 360 ∧
    0 < prevailingPct f.base.rows ∧
    prevailingPct f.base.rows ≤ 100 ∧
    ((∀ r ∈ f.base.rows, ∀ r' ∈ f.base.rows, r.wind_direction = r'.wind_direction) →
      prevailingPct f.base.rows = 100) := by
  have hemp : f.base.rows.isEmpty = false := by
    simp [List.isEmpty_iff, hne]
  have hdne : prevBins f.base.rows ≠ [] := by
    simp [prevBins, hne]
  obtain ⟨hmem, hspec⟩ := modeFirst_spec (prevBins f.base.rows) hdne
  have hbm : mostCommonBin f.base.rows ∈ prevBins f.base.rows := hmem
  have hrange : 0 ≤ mostCommonBin f.base.rows ∧ mostCommonBin f.base.rows < 16 := by
    rcases List.mem_map.mp hbm with ⟨r, -, hbr⟩
    rw [← hbr]
    exact prevBin_range _
  have hn : 0 < (f.base.rows.length : ℚ) := by
    exact_mod_cast List.length_pos.mpr hne
  have hcpos : 1 ≤ cnt (mostCommonBin f.base.rows) (prevBins f.base.rows) :=
    cnt_pos_of_mem _ _ hbm
  have hclen : cnt (mostCommonBin f.base.rows) (prevBins f.base.rows) ≤ f.base.rows.length := by
    have := cnt_le_length (mostCommonBin f.base.rows) (prevBins f.base.rows)
    simpa [prevBins] using this
  refine ⟨by simp [get_prevailing_direction, hemp], hbm, hspec, ?_, ?_, ?_, ?_, ?_⟩
  · have := hrange.1
    nlinarith
  · have := hrange.2
    nlinarith
  · rw [prevailingPct]
    have h1 : (0 : ℚ) < (cnt (mostCommonBin f.base.rows) (prevBins f.base.rows) : ℚ) := by
      exact_mod_cast hcpos
    positivity
  · rw [prevailingPct]
    have h1 : (cnt (mostCommonBin f.base.rows) (prevBins f.base.rows) : ℚ) ≤
        (f.base.rows.length : ℚ) := by
      exact_mod_cast hclen
    rw [div_mul_eq_mul_div, div_le_iff₀ hn]
    nlinarith
  · intro hsame
    have hall : ∀ x ∈ prevBins f.base.rows, x = mostCommonBin f.base.rows := by
      intro x hx
      rcases List.mem_map.mp hx with ⟨r, hr, rfl⟩
      rcases List.mem_map.mp hbm with ⟨r', hr', hbr'⟩
      rw [← hbr', hsame r hr r' hr']
    have hcall : cnt (mostCommonBin f.base.rows) (prevBins f.base.rows) =
        f.base.rows.length := by
      have := cnt_eq_length_of_all _ _ hall
      simpa [prevBins] using this
    rw [prevailingPct, hcall, div_self (ne_of_gt hn)]
    norm_num

lemma floorQ_eq (q : ℚ) (n : ℤ) (h1 : (n : ℚ) ≤ q) (h2 : q < n + 1) : ⌊q⌋ = n :=
  Int.floor_eq_iff.mpr ⟨h1, h2⟩

lemma prevBin_10 : prevBin 10 = 0 := by
  have hf : ⌊(10 : ℚ) / (45 / 2)⌋ = 0 := floorQ_eq _ 0 (by norm_num) (by norm_num)
  rw [prevBin, roundHalfEven, hf]
  norm_num

lemma prevBin_95 : prevBin 95 = 4 := by
  have hf : ⌊(95 : ℚ) / (45 / 2)⌋ = 4 := floorQ_eq _ 4 (by norm_num) (by norm_num)
  rw [prevBin, roundHalfEven, hf]
  norm_num

/-- Witness for C3 at `exF3` (directions 10, 95, 10): the rounded bins are
`[0, 4, 0]`, the prevailing bin is 0, so the direction is 0° and the
percentage `200/3 ≈ 66.7`. -/
theorem C3_prevailing_direction_witness :
    get_prevailing_direction (some exF3) =
      .ok ((mostCommonBin exF3.base.rows * (45 / 2), prevailingPct exF3.base.rows),
        some { exF3 with direction_bin := some (prevBins exF3.base.rows) }) ∧
    prevBins exF3.base.rows = [0, 4, 0] ∧
    mostCommonBin exF3.base.rows * (45 / 2) = 0 ∧
    prevailingPct exF3.base.rows = 200 / 3 := by
  have hpb : prevBins exF3.base.rows = [0, 4, 0] := by
    simp [prevBins, exF3, prevBin_10, prevBin_95]
  have hmc : mostCommonBin exF3.base.rows = 0 := by
    rw [mostCommonBin, hpb]
    norm_num [modeFirst, pickMode, cnt]
  refine ⟨(C3_prevailing_direction exF3 (by decide) (by decide)).1, hpb, ?_, ?_⟩
  · rw [hmc]
    norm_num
  · rw [prevailingPct, hmc, hpb]
    norm_num [cnt, exF3]

/-! ## C4: wind rose -/

lemma list_sum_map_add {α : Type} (l : List α) (f g : α → ℚ) :
    (l.map (fun i => f i + g i)).sum = (l.map f).sum + (l.map g).sum := by
  induction l with
  | nil => simp
  | cons x t ih =>
    simp only [List.map_cons, List.sum_cons, ih]
    ring

lemma list_sum_map_mul_right {α : Type} (l : List α) (f : α → ℚ) (k : ℚ) :
    (l.map (fun i => f i * k)).sum = (l.map f).sum * k := by
  induction l with
  | nil => simp
  | cons x t ih =>
    simp only [List.map_cons, List.sum_cons, ih]
    ring

lemma sum_indicator_range_of_ge (j m : ℕ) (hj : m ≤ j) :
    ((List.range m).map (fun i : ℕ => if (j : ℚ) = (i : ℚ) then (1 : ℚ) else 0)).sum = 0 := by
  induction m with
  | zero => simp
  | succ m ih =>
    rw [List.range_succ, List.map_append, List.sum_append, ih (by omega)]
    have hne : j ≠ m := by omega
    simp [hne]

lemma sum_indicator_range_of_lt (j m : ℕ) (hj : j < m) :
    ((List.range m).map (fun i : ℕ => if (j : ℚ) = (i : ℚ) then (1 : ℚ) else 0)).sum = 1 := by
  induction m with
  | zero => omega
  | succ m ih =>
    rw [List.range_succ, List.map_append, List.sum_append]
    by_cases hjm : j < m
    · rw [ih hjm]
      have hne : j ≠ m := by omega
      simp [hne]
    · have hj' : j = m := by omega
      subst hj'
      rw [sum_indicator_range_of_ge j j (le_refl _)]
      simp

lemma cnt_cons (x v : ℚ) (t : List ℚ) :
    cnt v (x :: t) = (if x = v then 1 else 0) + cnt v t := by
  rw [cnt, cnt, List.filter_cons]
  by_cases h : x = v
  · simp [h]
    omega
  · simp [h]

/-- Every element of the bin column is the cast of a bin index below `m`,
so the per-index counts over `0 .. m-1` add up to the number of samples. -/
lemma sum_cnt_range (m : ℕ) (bl : List ℚ) (h : ∀ v ∈ bl, ∃ j, j < m ∧ v = (j : ℚ)) :
    ((List.range m).map (fun i : ℕ => (cnt (i : ℚ) bl : ℚ))).sum = (bl.length : ℚ) := by
  induction bl with
  | nil => simp [cnt]
  | cons x t ih =>
    rcases h x (List.mem_cons_self _ _) with ⟨j, hj, rfl⟩
    have ht : ∀ v ∈ t, ∃ j, j < m ∧ v = (j : ℚ) :=
      fun v hv => h v (List.mem_cons_of_mem _ hv)
    have hcast : ∀ i : ℕ, (cnt (i : ℚ) ((j : ℚ) :: t) : ℚ) =
        (if (j : ℚ) = (i : ℚ) then (1 : ℚ) else 0) + (cnt (i : ℚ) t : ℚ) := by
      intro i
      rw [cnt_cons]
      by_cases hji : (j : ℚ) = (i : ℚ) <;> simp [hji]
    calc ((List.range m).map (fun i : ℕ => (cnt (i : ℚ) ((j : ℚ) :: t) : ℚ))).sum
        = ((List.range m).map (fun i : ℕ =>
            (if (j : ℚ) = (i : ℚ) then (1 : ℚ) else 0) + (cnt (i : ℚ) t : ℚ))).sum := by
          exact congrArg List.sum (List.map_congr_left (fun i _ => hcast i))
      _ = ((List.range m).map (fun i : ℕ => if (j : ℚ) = (i : ℚ) then (1 : ℚ) else 0)).sum +
          ((List.range m).map (fun i : ℕ => (cnt (i : ℚ) t : ℚ))).sum :=
          list_sum_map_add _ _ _
      _ = 1 + (t.length : ℚ) := by
          rw [sum_indicator_range_of_lt j m hj, ih ht]
      _ = (((j : ℚ) :: t).length : ℚ) := by
          simp [List.length_cons]
          ring

/-- Boolean-mask selection agrees with counting on the bin column when
the columns are aligned. -/
lemma length_rowsInBin (dbins : List ℚ) (rows : List Row) (v : ℚ)
    (h : dbins.length = rows.length) :
    (rowsInBin dbins rows v).length = cnt v dbins := by
  induction dbins generalizing rows with
  | nil => simp [rowsInBin, cnt]
  | cons x t ih =>
    cases rows with
    | nil => simp at h
    | cons r rs =>
      simp only [rowsInBin, cnt] at ih ⊢
      rw [List.zip_cons_cons, List.filter_cons, List.filter_cons]
      by_cases hx : x = v <;> simp [hx, ih rs (by simpa using h)]

/-- Each wind-rose bin value is the cast of an index below `bins`. -/
lemma roseBin_cast (bins : ℕ) (hbins : 1 ≤ bins) (dir : ℚ) :
    ∃ j, j < bins ∧ roseBin bins dir = (j : ℚ) := by
  refine ⟨(floatToInt (dir / binSize bins) % (bins : ℤ)).toNat, ?_, ?_⟩
  · have h1 : floatToInt (dir / binSize bins) % (bins : ℤ) < (bins : ℤ) :=
      Int.emod_lt_of_pos _ (by exact_mod_cast hbins)
    omega
  · rw [roseBin]
    have h0 : 0 ≤ floatToInt (dir / binSize bins) % (bins : ℤ) :=
      Int.emod_nonneg _ (by positivity)
    exact_mod_cast (Int.toNat_of_nonneg h0).symm

/-- C4: for every non-empty dataset with directions in `[0, 360)` and
every `bins ≥ 1`, `get_wind_rose_data(bins)` bins each sample by
`floor(direction / (360/bins)) mod bins` (truncation equals floor for the
nonnegative directions), returns lower edges `i * (360/bins)`, frequencies
`count(bin==i) / total * 100` summing to exactly 100, and per-bin mean
speeds with 0 for an empty bin. -/
theorem C4_wind_rose (f : Frame) (bins : ℕ) (hne : f.base.rows ≠ []) (hbins : 1 ≤ bins)
    (hdir : ∀ r ∈ f.base.rows, 0 ≤ r.wind_direction ∧ r.wind_direction < 360) :
    get_wind_rose_data bins (some f) =
      .ok (windRoseOf bins f.base.rows,
        some { f with direction_bin := some (roseBins bins f.base.rows) }) ∧
    roseBins bins f.base.rows =
      f.base.rows.map (fun r => ((⌊r.wind_direction / binSize bins⌋ % (bins : ℤ) : ℤ) : ℚ)) ∧
    (windRoseOf bins f.base.rows).directions =
      (List.range bins).map (fun i : ℕ => (i : ℚ) * binSize bins) ∧
    (windRoseOf bins f.base.rows).frequencies =
      (List.range bins).map
        (fun i : ℕ =>
          (cnt (i : ℚ) (roseBins bins f.base.rows) : ℚ) / (f.base.rows.length : ℚ) * 100) ∧
    (windRoseOf bins f.base.rows).frequencies.sum = 100 ∧
    (windRoseOf bins f.base.rows).avg_speeds =
      (List.range bins).map
        (fun i : ℕ =>
          if 0 < (rowsInBin (roseBins bins f.base.rows) f.base.rows (i : ℚ)).length
          then listMean (speeds (rowsInBin (roseBins bins f.base.rows) f.base.rows (i : ℚ)))
          else 0) := by
  have hemp : f.base.rows.isEmpty = false := by
    simp [List.isEmpty_iff, hne]
  have hlen : (roseBins bins f.base.rows).length = f.base.rows.length := by
    simp [roseBins]
  have hn : 0 < (f.base.rows.length : ℚ) := by
    exact_mod_cast List.length_pos.mpr hne
  have hfreq : (windRoseOf bins f.base.rows).frequencies =
      (List.range bins).map (fun i : ℕ =>
        (cnt (i : ℚ) (roseBins bins f.base.rows) : ℚ) / (f.base.rows.length : ℚ) * 100) := by
    show (List.range bins).map (fun i : ℕ =>
        ((rowsInBin (roseBins bins f.base.rows) f.base.rows (i : ℚ)).length : ℚ) /
          (f.base.rows.length : ℚ) * 100) = _
    apply List.map_congr_left
    intro i _
    rw [length_rowsInBin _ _ _ hlen]
  refine ⟨by simp [get_wind_rose_data, hemp], ?_, rfl, hfreq, ?_, rfl⟩
  · rw [roseBins]
    apply List.map_congr_left
    intro r hr
    have h0 : 0 ≤ r.wind_direction / binSize bins := by
      apply div_nonneg (hdir r hr).1
      rw [binSize]
      positivity
    simp only [roseBin, floatToInt]
    rw [if_pos h0]
  · rw [hfreq]
    have hmem : ∀ v ∈ roseBins bins f.base.rows, ∃ j, j < bins ∧ v = (j : ℚ) := by
      intro v hv
      rcases List.mem_map.mp hv with ⟨r, -, rfl⟩
      exact roseBin_cast bins hbins _
    have hstep : (List.range bins).map (fun i : ℕ =>
        (cnt (i : ℚ) (roseBins bins f.base.rows) : ℚ) / (f.base.rows.length : ℚ) * 100) =
        (List.range bins).map (fun i : ℕ =>
          (cnt (i : ℚ) (roseBins bins f.base.rows) : ℚ) * (100 / (f.base.rows.length : ℚ))) := by
      apply List.map_congr_left
      intro i _
      ring
    rw [hstep, list_sum_map_mul_right, sum_cnt_range bins _ hmem, hlen]
    field_simp

lemma roseBin_4_10 : roseBin 4 10 = 0 := by
  have hf : ⌊(10 : ℚ) / binSize 4⌋ = 0 := by
    rw [binSize]
    exact floorQ_eq _ 0 (by norm_num) (by norm_num)
  simp only [roseBin, floatToInt]
  rw [if_pos (by rw [binSize]; norm_num), hf]
  norm_num

lemma roseBin_4_95 : roseBin 4 95 = 1 := by
  have hf : ⌊(95 : ℚ) / binSize 4⌋ = 1 := by
    rw [binSize]
    exact floorQ_eq _ 1 (by norm_num) (by norm_num)
  simp only [roseBin, floatToInt]
  rw [if_pos (by rw [binSize]; norm_num), hf]
  norm_num

/-- Witness for C4 at `exF3` with `bins = 4`: the bin column is
`[0, 1, 0]`, the frequencies `[200/3, 100/3, 0, 0]` sum to 100. -/
theorem C4_wind_rose_witness :
    get_wind_rose_data 4 (some exF3) =
      .ok (windRoseOf 4 exF3.base.rows,
        some { exF3 with direction_bin := some (roseBins 4 exF3.base.rows) }) ∧
    roseBins 4 exF3.base.rows = [0, 1, 0] ∧
    (windRoseOf 4 exF3.base.rows).frequencies = [200 / 3, 100 / 3, 0, 0] ∧
    (windRoseOf 4 exF3.base.rows).frequencies.sum = 100 := by
  have hrb : roseBins 4 exF3.base.rows = [0, 1, 0] := by
    simp [roseBins, exF3, roseBin_4_10, roseBin_4_95]
  have h4 : List.range 4 = [0, 1, 2, 3] := by decide
  refine ⟨(C4_wind_rose exF3 4 (by decide) (by norm_num) (by decide)).1, hrb, ?_,
    (C4_wind_rose exF3 4 (by decide) (by norm_num) (by decide)).2.2.2.2.1⟩
  show (List.range 4).map (fun i : ℕ =>
      ((rowsInBin (roseBins 4 exF3.base.rows) exF3.base.rows (i : ℚ)).length : ℚ) /
        (exF3.base.rows.length : ℚ) * 100) = _
  rw [h4, hrb]
  norm_num [rowsInBin, exF3]

/-! ## C7: daily pattern -/

lemma hourOf_lt (t : ℕ) : hourOf t < 24 :=
  Nat.mod_lt _ (by norm_num)

/-- C7: for every non-empty dataset, `analyze_daily_pattern` fails with
`MissingTimestampError` when the timestamp column is absent; otherwise it
groups the samples by the hour component of their timestamps and returns
`{mean, std, min, max}` of speed per hour, and an hour of day with no
samples is absent from the table. -/
theorem C7_daily_pattern (f : Frame) (hne : f.base.rows ≠ []) :
    (f.base.hasTimestamp = false → analyze_daily_pattern (some f) = .error .missingTimestamp) ∧
    (f.base.hasTimestamp = true →
      analyze_daily_pattern (some f) =
        .ok (dailyTable f.base.rows, some { f with hour := some (hoursOf f.base.rows) })) ∧
    (∀ h : ℕ, (∃ st, (h, st) ∈ dailyTable f.base.rows) ↔ h ∈ hoursOf f.base.rows) ∧
    (∀ p ∈ dailyTable f.base.rows,
      p.2 = hourStatsOf (speeds (f.base.rows.filter (fun r => decide (hourOf r.ts = p.1))))) := by
  have hemp : f.base.rows.isEmpty = false := by
    simp [List.isEmpty_iff, hne]
  refine ⟨?_, ?_, ?_, ?_⟩
  · intro hts
    simp [analyze_daily_pattern, hemp, hts]
  · intro hts
    simp [analyze_daily_pattern, hemp, hts]
  · intro h
    constructor
    · rintro ⟨st, hst⟩
      rcases List.mem_map.mp hst with ⟨k, hk, hpair⟩
      rw [Prod.ext_iff] at hpair
      rcases hpair with ⟨h1, -⟩
      simp only at h1
      rw [← h1]
      exact of_decide_eq_true (List.mem_filter.mp hk).2
    · intro hh
      refine ⟨hourStatsOf (speeds (f.base.rows.filter (fun r => decide (hourOf r.ts = h)))), ?_⟩
      apply List.mem_map.mpr
      refine ⟨h, List.mem_filter.mpr ⟨List.mem_range.mpr ?_, by simpa using hh⟩, rfl⟩
      rcases List.mem_map.mp hh with ⟨r, -, rfl⟩
      exact hourOf_lt _
  · intro p hp
    rcases List.mem_map.mp hp with ⟨k, -, rfl⟩
    rfl

/-- Witness for C7 at `exF3`: the hour column is `[1, 2, 13]` and the
table has exactly those hours, each with the statistics of its single
sample (the std of a single sample is missing). -/
theorem C7_daily_pattern_witness :
    analyze_daily_pattern (some exF3) =
      .ok (dailyTable exF3.base.rows, some { exF3 with hour := some (hoursOf exF3.base.rows) }) ∧
    hoursOf exF3.base.rows = [1, 2, 13] ∧
    dailyTable exF3.base.rows =
      [(1, { mean := 5, std_sq := none, min := 5, max := 5 }),
       (2, { mean := 10, std_sq := none, min := 10, max := 10 }),
       (13, { mean := 3, std_sq := none, min := 3, max := 3 })] := by
  have hk : (List.range 24).filter (fun h => decide (h ∈ hoursOf exF3.base.rows)) =
      [1, 2, 13] := by
    decide
  refine ⟨(C7_daily_pattern exF3 (by decide)).2.1 rfl, by decide, ?_⟩
  rw [dailyTable, hk]
  norm_num [hourStatsOf, speeds, exF3, hourOf, listMean, listVar?, listMin, listMax]

/-! ## C9: idempotence of queries -/

/-- Re-running any query immediately after itself yields the same result:
the derived helper columns some queries write depend only on the core
columns, which no query modifies, and the queries' results depend only on
the core columns and on helper columns that are left unchanged between the
two calls. -/
lemma resOf_postOf (q : Query) (s : Option Frame) : resOf q s = resOf q (postOf q s) := by
  cases s with
  | none => cases q <;> rfl
  | some f =>
    by_cases hε : f.base.rows.isEmpty
    · cases q <;> cases hts : f.base.hasTimestamp <;>
        simp [resOf, postOf, runQuery, Except.map, get_basic_statistics, get_wind_rose_data,
          detect_calm_periods, detect_strong_wind_events, calculate_gust_factor,
          get_prevailing_direction, analyze_daily_pattern, calculate_power_density,
          get_summary_report, hε, hts]
    · have hε' : f.base.rows.isEmpty = false := by
        simpa using hε
      cases q <;> cases hts : f.base.hasTimestamp <;>
        simp [resOf, postOf, runQuery, Except.map, get_basic_statistics, get_wind_rose_data,
          detect_calm_periods, detect_strong_wind_events, calculate_gust_factor,
          get_prevailing_direction, analyze_daily_pattern, calculate_power_density,
          get_summary_report, hε', hts]

/-- C9: after any sequence of queries (which may have written the derived
helper columns `direction_bin` and `hour`), calling any query twice in
succession on the unmodified dataset yields identical results both times:
the result of the second call (run on the state the first call leaves
behind) equals the result of the first. -/
theorem C9_idempotent (qs : List Query) (q : Query) (d : Option Frame) :
    resOf q (applyQueries qs d) = resOf q (postOf q (applyQueries qs d)) :=
  resOf_postOf q (applyQueries qs d)
